import Mathlib

/-!
Verification of the ATM ledger core (`src/atm.py`).

The Python program keeps a store `{"next_acc": n, "accounts": {...}}` mapping
account numbers (decimal-string keys of a JSON dict) to account records
`{"name", "pin", "balance", "history"}` and mutates it through
`create_account`, `deposit`, `withdraw`, `transfer`; `authenticate`,
`show_balance` and `view_history` are reads.

Embedding choices:
* Account numbers are modelled as `ℕ`; the Python code stores `str(n)` only
  because JSON keys are strings, and `str` is injective on naturals.
* Amounts are modelled as `ℚ`. The interactive `float(input())` parse is
  modelled as an `Option ℚ` argument: `none` is a parse failure
  (Python `ValueError`).
* The dict of accounts is an association list with Python-dict semantics:
  lookup finds the (unique) key, assignment to an existing key replaces its
  value in place, assignment to a fresh key appends.
* `datetime.utcnow()` timestamps are environment input and carry no program
  logic; history entries are modelled by their `type`, `amount` and `note`
  fields.
* Each mutating operation returns the resulting store together with
  `Option Err` (`none` = success); the Python functions print a message and
  `return` early on failure, leaving the store exactly as mutated so far.
* File persistence (`save_data` / `load_data` on `accounts.json`) is out of
  scope; `load_data` below is the fresh-store branch of the Python
  `load_data` (no `accounts.json` present).
-/

namespace ATM

/-- The `"type"` field of a history entry in `add_history` / `create_account`. -/
inductive HKind where
  | create
  | deposit
  | withdraw
  | transfer_out
  | transfer_in
deriving DecidableEq, Repr

/-- One history record: `{"time": ..., "type": typ, "amount": amount, "note": note}`,
with the wall-clock `"time"` field omitted (environment input). -/
structure HistoryEntry where
  kind : HKind
  amount : ℚ
  note : String
deriving DecidableEq, Repr

/-- One account record: `{"name": ..., "pin": ..., "balance": ..., "history": [...]}`. -/
structure Account where
  name : String
  pin : String
  balance : ℚ
  history : List HistoryEntry
deriving DecidableEq, Repr

/-- The persisted data: `{"next_acc": ..., "accounts": {...}}`. -/
structure Store where
  next_acc : ℕ
  accounts : List (ℕ × Account)
deriving DecidableEq, Repr

/-- Python `data["accounts"].get(k)` / `k in data["accounts"]`: first (unique) match. -/
def lookupAcc (k : ℕ) : List (ℕ × Account) → Option Account
  | [] => none
  | (k', a) :: rest => if k' = k then some a else lookupAcc k rest

/-- Python in-place mutation of the record at key `k` (dict keys are unique,
so only the first match is touched). Absent key: no change. -/
def updateAcc (k : ℕ) (f : Account → Account) : List (ℕ × Account) → List (ℕ × Account)
  | [] => []
  | (k', a) :: rest => if k' = k then (k', f a) :: rest else (k', a) :: updateAcc k f rest

/-- Python dict assignment `data["accounts"][k] = v`: replace an existing
binding, else append a new one. -/
def insertAcc (k : ℕ) (v : Account) : List (ℕ × Account) → List (ℕ × Account)
  | [] => [(k, v)]
  | (k', a) :: rest => if k' = k then (k, v) :: rest else (k', a) :: insertAcc k v rest

/-- Error kinds of the operations (the Python code prints a message and
returns early; the spec names these error kinds). -/
inductive Err where
  | validationError
  | invalidAmount
  | insufficientFunds
  | sameAccount
  | notFound
deriving DecidableEq, Repr

/-- `load_data` when `accounts.json` does not exist: `{"next_acc": 1001, "accounts": {}}`. -/
def load_data : Store := { next_acc := 1001, accounts := [] }

/-- `create_account`: reject an empty (stripped) name, else allocate
`str(next_acc)`, bump the counter, store a fresh account with balance `0.0`
and a single `create` history entry. `pin` is the 4-digit PIN the
interactive loop finally accepts (the loop re-prompts, it never fails). -/
def create_account (st : Store) (name pin : String) : Store × Option Err :=
  if name = "" then (st, some .validationError)
  else
    ({ next_acc := st.next_acc + 1
       accounts := insertAcc st.next_acc
         { name := name, pin := pin, balance := 0
           history := [{ kind := .create, amount := 0, note := "Account created" }] }
         st.accounts },
     none)

/-- `authenticate`: look the account up, compare the PIN, return the account
number (the handle) on success. It performs no store writes. -/
def authenticate (st : Store) (acc : ℕ) (pin : String) : Option ℕ :=
  match lookupAcc acc st.accounts with
  | none => none
  | some a => if a.pin ≠ pin then none else some acc

/-- `show_balance`: read `data["accounts"][acc]["balance"]` (a `KeyError` on a
missing key is modelled as `none`; handles are always present). -/
def show_balance (st : Store) (acc : ℕ) : Option ℚ :=
  (lookupAcc acc st.accounts).map Account.balance

/-- `add_history`: append one entry to the account's history list. -/
def add_history (typ : HKind) (amount : ℚ) (note : String) (a : Account) : Account :=
  { a with history := a.history ++ [{ kind := typ, amount := amount, note := note }] }

/-- The record mutation of a successful deposit:
`balance += amt; add_history(..., "deposit", amt, "Cash deposit")`. -/
def depositUpd (a : ℚ) (A : Account) : Account :=
  add_history .deposit a "Cash deposit" { A with balance := A.balance + a }

/-- The record mutation of a successful withdrawal:
`balance -= amt; add_history(..., "withdraw", amt, "Cash withdrawal")`. -/
def withdrawUpd (a : ℚ) (A : Account) : Account :=
  add_history .withdraw a "Cash withdrawal" { A with balance := A.balance - a }

/-- The source-side mutation of a successful transfer:
`balance -= amt; add_history(..., "transfer_out", amt, f"To {to_acc}")`. -/
def transferOutUpd (a : ℚ) (to_acc : ℕ) (A : Account) : Account :=
  add_history .transfer_out a ("To " ++ toString to_acc) { A with balance := A.balance - a }

/-- The destination-side mutation of a successful transfer:
`balance += amt; add_history(..., "transfer_in", amt, f"From {acc}")`. -/
def transferInUpd (a : ℚ) (acc : ℕ) (B : Account) : Account :=
  add_history .transfer_in a ("From " ++ toString acc) { B with balance := B.balance + a }

/-- `deposit`: parse failure or `amt <= 0` is rejected with the store
untouched; otherwise add `amt` to the balance and append a `deposit` entry
noted "Cash deposit". -/
def deposit (st : Store) (acc : ℕ) (amt : Option ℚ) : Store × Option Err :=
  match amt with
  | none => (st, some .invalidAmount)
  | some a =>
    if a ≤ 0 then (st, some .invalidAmount)
    else
      match lookupAcc acc st.accounts with
      | none => (st, some .notFound)
      | some _ =>
        ({ st with accounts := updateAcc acc (depositUpd a) st.accounts }, none)

/-- `withdraw`: parse failure or `amt <= 0` rejected; `balance < amt`
rejected with insufficient funds; otherwise subtract and append a `withdraw`
entry noted "Cash withdrawal". -/
def withdraw (st : Store) (acc : ℕ) (amt : Option ℚ) : Store × Option Err :=
  match amt with
  | none => (st, some .invalidAmount)
  | some a =>
    if a ≤ 0 then (st, some .invalidAmount)
    else
      match lookupAcc acc st.accounts with
      | none => (st, some .notFound)
      | some A =>
        if A.balance < a then (st, some .insufficientFunds)
        else
          ({ st with accounts := updateAcc acc (withdrawUpd a) st.accounts }, none)

/-- `transfer`: checks in source order — same account, recipient existence,
amount parse, positivity, funds — then debit the source, credit the
recipient and append `transfer_out` / `transfer_in` entries whose notes name
the counterparty (`f"To {to_acc}"`, `f"From {acc}"`). -/
def transfer (st : Store) (acc to_acc : ℕ) (amt : Option ℚ) : Store × Option Err :=
  if to_acc = acc then (st, some .sameAccount)
  else
    match lookupAcc to_acc st.accounts with
    | none => (st, some .notFound)
    | some _ =>
      match amt with
      | none => (st, some .invalidAmount)
      | some a =>
        if a ≤ 0 then (st, some .invalidAmount)
        else
          match lookupAcc acc st.accounts with
          | none => (st, some .notFound)
          | some A =>
            if A.balance < a then (st, some .insufficientFunds)
            else
              let l' := updateAcc to_acc (transferInUpd a acc) (updateAcc acc (transferOutUpd a to_acc) st.accounts)
              ({ st with accounts := l' }, none)

/-- `view_history`: the history displayed most recent first (`reversed(hist)`). -/
def view_history (st : Store) (acc : ℕ) : Option (List HistoryEntry) :=
  (lookupAcc acc st.accounts).map (fun a => a.history.reverse)

/-- One menu-level mutating operation with its (already read) inputs. -/
inductive Op where
  | create (name pin : String)
  | deposit (acc : ℕ) (amt : Option ℚ)
  | withdraw (acc : ℕ) (amt : Option ℚ)
  | transfer (acc to_acc : ℕ) (amt : Option ℚ)

/-- Dispatch one operation on the store. -/
def step (st : Store) : Op → Store × Option Err
  | .create name pin => create_account st name pin
  | .deposit acc amt => ATM.deposit st acc amt
  | .withdraw acc amt => ATM.withdraw st acc amt
  | .transfer acc t amt => ATM.transfer st acc t amt

/-- Run a sequence of operations, threading the store. -/
def run (st : Store) : List Op → Store
  | [] => st
  | op :: rest => run (step st op).1 rest

/-- A store reachable from the fresh store by some sequence of operations. -/
def Reachable (st : Store) : Prop := ∃ ops, run load_data ops = st

/-- Signed amount of a history entry: debits count negative. -/
def signedAmt (e : HistoryEntry) : ℚ :=
  match e.kind with
  | .withdraw => -e.amount
  | .transfer_out => -e.amount
  | _ => e.amount

/-- Replay of a history: sum of the signed amounts. -/
def signedSum (h : List HistoryEntry) : ℚ := (h.map signedAmt).sum

/-- Sum of all balances in an account list. -/
def balSum (l : List (ℕ × Account)) : ℚ := (l.map (fun p => p.2.balance)).sum

/-- The invariant every reachable store satisfies: keys are below the
counter, balances are non-negative, and each history replays to the balance. -/
def Inv (st : Store) : Prop :=
  (∀ p ∈ st.accounts, p.1 < st.next_acc) ∧
  (∀ p ∈ st.accounts, 0 ≤ p.2.balance) ∧
  (∀ p ∈ st.accounts, signedSum p.2.history = p.2.balance)

/-- Net cash flow of one finished operation: a successful deposit brings its
amount in, a successful withdrawal takes it out, everything else (failures,
account creation, transfers) moves no money in or out of the store. -/
def flowOf (op : Op) (r : Option Err) : ℚ :=
  match op, r with
  | .deposit _ (some a), none => a
  | .withdraw _ (some a), none => -a
  | _, _ => 0

/-- Net flow of a whole operation sequence, threaded through the store. -/
def netFlow (st : Store) : List Op → ℚ
  | [] => 0
  | op :: rest => flowOf op (step st op).2 + netFlow (step st op).1 rest

/-- How many history entries one finished operation appends to account `k`:
one for a successful deposit or withdrawal on `k`, one on each side of a
successful transfer, zero otherwise. -/
def touchOf (k : ℕ) (op : Op) (r : Option Err) : ℕ :=
  match op, r with
  | .deposit acc _, none => if acc = k then 1 else 0
  | .withdraw acc _, none => if acc = k then 1 else 0
  | .transfer acc t _, none => (if acc = k then 1 else 0) + (if t = k then 1 else 0)
  | _, _ => 0

/-- Number of successful mutating operations touching account `k` along a run. -/
def mutCount (k : ℕ) (st : Store) : List Op → ℕ
  | [] => 0
  | op :: rest => touchOf k op (step st op).2 + mutCount k (step st op).1 rest

/-- A small concrete reachable store: two accounts created, one deposit made. -/
def demoStore : Store :=
  run load_data [.create "Alice" "1234", .create "Bob" "2222", .deposit 1001 (some 500)]

/-- The record of account 1001 in `demoStore`. -/
def demoAlice : Account :=
  { name := "Alice", pin := "1234", balance := 500
    history := [{ kind := .create, amount := 0, note := "Account created" },
                { kind := .deposit, amount := 500, note := "Cash deposit" }] }

/-- The record of account 1002 in `demoStore`. -/
def demoBob : Account :=
  { name := "Bob", pin := "2222", balance := 0
    history := [{ kind := .create, amount := 0, note := "Account created" }] }

theorem signedSum_append (h t : List HistoryEntry) :
    signedSum (h ++ t) = signedSum h + signedSum t := by
  simp [signedSum]

theorem lookupAcc_some_mem {k : ℕ} {a : Account} {l : List (ℕ × Account)}
    (h : lookupAcc k l = some a) : (k, a) ∈ l := by
  induction l with
  | nil => simp [lookupAcc] at h
  | cons p rest ih =>
    obtain ⟨k', b⟩ := p
    by_cases hk : k' = k
    · subst hk
      simp [lookupAcc] at h
      simp [h]
    · simp only [lookupAcc, if_neg hk] at h
      exact List.mem_cons_of_mem _ (ih h)

theorem lookupAcc_none_of_forall_lt {n : ℕ} {l : List (ℕ × Account)}
    (h : ∀ p ∈ l, p.1 < n) : lookupAcc n l = none := by
  cases hl : lookupAcc n l with
  | none => rfl
  | some a => exact absurd (h _ (lookupAcc_some_mem hl)) (by simp)

theorem lookupAcc_updateAcc_self {k : ℕ} {f : Account → Account} {l : List (ℕ × Account)}
    {a : Account} (h : lookupAcc k l = some a) :
    lookupAcc k (updateAcc k f l) = some (f a) := by
  induction l with
  | nil => simp [lookupAcc] at h
  | cons p rest ih =>
    obtain ⟨k', b⟩ := p
    by_cases hk : k' = k
    · subst hk
      simp [lookupAcc] at h
      simp [updateAcc, lookupAcc, h]
    · simp only [lookupAcc, if_neg hk] at h
      simp only [updateAcc, if_neg hk, lookupAcc]
      exact ih h

theorem lookupAcc_updateAcc_ne {k k' : ℕ} (hk : k' ≠ k) (f : Account → Account)
    (l : List (ℕ × Account)) : lookupAcc k' (updateAcc k f l) = lookupAcc k' l := by
  induction l with
  | nil => simp [updateAcc]
  | cons p rest ih =>
    obtain ⟨k'', b⟩ := p
    simp only [updateAcc]
    by_cases h2 : k'' = k
    · have h3 : ¬ k'' = k' := fun h => hk (h.symm.trans h2)
      rw [if_pos h2]
      simp only [lookupAcc]
      rw [if_neg h3, if_neg h3]
    · rw [if_neg h2]
      simp only [lookupAcc]
      by_cases h3 : k'' = k'
      · rw [if_pos h3, if_pos h3]
      · rw [if_neg h3, if_neg h3]
        exact ih

theorem updateAcc_of_none {k : ℕ} {f : Account → Account} {l : List (ℕ × Account)}
    (h : lookupAcc k l = none) : updateAcc k f l = l := by
  induction l with
  | nil => rfl
  | cons p rest ih =>
    obtain ⟨k', b⟩ := p
    by_cases hk : k' = k
    · subst hk; simp [lookupAcc] at h
    · simp only [lookupAcc, if_neg hk] at h
      simp [updateAcc, if_neg hk, ih h]

theorem insertAcc_of_none {k : ℕ} {v : Account} {l : List (ℕ × Account)}
    (h : lookupAcc k l = none) : insertAcc k v l = l ++ [(k, v)] := by
  induction l with
  | nil => rfl
  | cons p rest ih =>
    obtain ⟨k', b⟩ := p
    by_cases hk : k' = k
    · subst hk; simp [lookupAcc] at h
    · simp only [lookupAcc, if_neg hk] at h
      simp [insertAcc, if_neg hk, ih h]

theorem lookupAcc_append_right {k : ℕ} {l l' : List (ℕ × Account)}
    (h : lookupAcc k l = none) : lookupAcc k (l ++ l') = lookupAcc k l' := by
  induction l with
  | nil => rfl
  | cons p rest ih =>
    obtain ⟨k', b⟩ := p
    by_cases hk : k' = k
    · subst hk; simp [lookupAcc] at h
    · simp only [lookupAcc, if_neg hk] at h
      simp [lookupAcc, if_neg hk, ih h]

theorem balSum_updateAcc {k : ℕ} {f : Account → Account} {l : List (ℕ × Account)}
    {a : Account} (h : lookupAcc k l = some a) :
    balSum (updateAcc k f l) = balSum l - a.balance + (f a).balance := by
  induction l with
  | nil => simp [lookupAcc] at h
  | cons p rest ih =>
    obtain ⟨k', b⟩ := p
    by_cases hk : k' = k
    · subst hk
      simp [lookupAcc] at h
      subst h
      simp [updateAcc, balSum]
      ring
    · simp only [lookupAcc, if_neg hk] at h
      simp only [updateAcc, if_neg hk, balSum, List.map_cons, List.sum_cons]
      have := ih h
      simp only [balSum] at this
      rw [this]
      ring

theorem balSum_append (l l' : List (ℕ × Account)) :
    balSum (l ++ l') = balSum l + balSum l' := by
  simp [balSum]

theorem forall_mem_updateAcc {P : ℕ × Account → Prop} {k : ℕ} {f : Account → Account}
    {l : List (ℕ × Account)} (h1 : ∀ p ∈ l, P p)
    (h2 : ∀ a, lookupAcc k l = some a → P (k, f a)) :
    ∀ p ∈ updateAcc k f l, P p := by
  induction l with
  | nil => simp [updateAcc]
  | cons p rest ih =>
    obtain ⟨k', b⟩ := p
    by_cases hk : k' = k
    · subst hk
      simp only [updateAcc, if_pos rfl]
      intro q hq
      rcases List.mem_cons.mp hq with h | h
      · subst h
        exact h2 b (by simp [lookupAcc])
      · exact h1 _ (List.mem_cons_of_mem _ h)
    · simp only [updateAcc, if_neg hk]
      intro q hq
      rcases List.mem_cons.mp hq with h | h
      · subst h
        exact h1 _ (List.mem_cons_self _ _)
      · refine ih (fun p hp => h1 _ (List.mem_cons_of_mem _ hp)) ?_ q h
        intro a ha
        refine h2 a ?_
        simp [lookupAcc, if_neg hk, ha]

/-! Field equations of the four record mutations. -/

theorem depositUpd_balance (a : ℚ) (A : Account) : (depositUpd a A).balance = A.balance + a := rfl

theorem depositUpd_history (a : ℚ) (A : Account) :
    (depositUpd a A).history =
      A.history ++ [{ kind := .deposit, amount := a, note := "Cash deposit" }] := rfl

theorem depositUpd_name (a : ℚ) (A : Account) : (depositUpd a A).name = A.name := rfl

theorem depositUpd_pin (a : ℚ) (A : Account) : (depositUpd a A).pin = A.pin := rfl

theorem withdrawUpd_balance (a : ℚ) (A : Account) : (withdrawUpd a A).balance = A.balance - a := rfl

theorem withdrawUpd_history (a : ℚ) (A : Account) :
    (withdrawUpd a A).history =
      A.history ++ [{ kind := .withdraw, amount := a, note := "Cash withdrawal" }] := rfl

theorem withdrawUpd_name (a : ℚ) (A : Account) : (withdrawUpd a A).name = A.name := rfl

theorem withdrawUpd_pin (a : ℚ) (A : Account) : (withdrawUpd a A).pin = A.pin := rfl

theorem transferOutUpd_balance (a : ℚ) (t : ℕ) (A : Account) :
    (transferOutUpd a t A).balance = A.balance - a := rfl

theorem transferOutUpd_history (a : ℚ) (t : ℕ) (A : Account) :
    (transferOutUpd a t A).history =
      A.history ++ [{ kind := .transfer_out, amount := a, note := "To " ++ toString t }] := rfl

theorem transferOutUpd_name (a : ℚ) (t : ℕ) (A : Account) : (transferOutUpd a t A).name = A.name := rfl

theorem transferOutUpd_pin (a : ℚ) (t : ℕ) (A : Account) : (transferOutUpd a t A).pin = A.pin := rfl

theorem transferInUpd_balance (a : ℚ) (s : ℕ) (B : Account) :
    (transferInUpd a s B).balance = B.balance + a := rfl

theorem transferInUpd_history (a : ℚ) (s : ℕ) (B : Account) :
    (transferInUpd a s B).history =
      B.history ++ [{ kind := .transfer_in, amount := a, note := "From " ++ toString s }] := rfl

theorem transferInUpd_name (a : ℚ) (s : ℕ) (B : Account) : (transferInUpd a s B).name = B.name := rfl

theorem transferInUpd_pin (a : ℚ) (s : ℕ) (B : Account) : (transferInUpd a s B).pin = B.pin := rfl

theorem signedAmt_deposit (a : ℚ) (n : String) :
    signedAmt { kind := .deposit, amount := a, note := n } = a := rfl

theorem signedAmt_withdraw (a : ℚ) (n : String) :
    signedAmt { kind := .withdraw, amount := a, note := n } = -a := rfl

theorem signedAmt_transfer_out (a : ℚ) (n : String) :
    signedAmt { kind := .transfer_out, amount := a, note := n } = -a := rfl

theorem signedAmt_transfer_in (a : ℚ) (n : String) :
    signedAmt { kind := .transfer_in, amount := a, note := n } = a := rfl

/-! Branch characterizations of the four mutating operations. -/

theorem create_empty_eq (st : Store) (pin : String) :
    create_account st "" pin = (st, some .validationError) := rfl

theorem create_ok_eq (st : Store) {name : String} (pin : String) (h : name ≠ "") :
    create_account st name pin =
      ({ next_acc := st.next_acc + 1
         accounts := insertAcc st.next_acc
           { name := name, pin := pin, balance := 0
             history := [{ kind := .create, amount := 0, note := "Account created" }] }
           st.accounts },
       none) := by
  simp [create_account, h]

theorem deposit_none_eq (st : Store) (acc : ℕ) :
    deposit st acc none = (st, some .invalidAmount) := rfl

theorem deposit_nonpos_eq (st : Store) (acc : ℕ) {a : ℚ} (ha : a ≤ 0) :
    deposit st acc (some a) = (st, some .invalidAmount) := by
  simp [deposit, ha]

theorem deposit_missing_eq (st : Store) {acc : ℕ} {a : ℚ} (ha : ¬ a ≤ 0)
    (hl : lookupAcc acc st.accounts = none) :
    deposit st acc (some a) = (st, some .notFound) := by
  simp [deposit, ha, hl]

theorem deposit_ok_eq (st : Store) {acc : ℕ} {a : ℚ} {A : Account} (ha : ¬ a ≤ 0)
    (hl : lookupAcc acc st.accounts = some A) :
    deposit st acc (some a) =
      ({ st with accounts := updateAcc acc (depositUpd a) st.accounts }, none) := by
  simp [deposit, ha, hl]

theorem withdraw_none_eq (st : Store) (acc : ℕ) :
    withdraw st acc none = (st, some .invalidAmount) := rfl

theorem withdraw_nonpos_eq (st : Store) (acc : ℕ) {a : ℚ} (ha : a ≤ 0) :
    withdraw st acc (some a) = (st, some .invalidAmount) := by
  simp [withdraw, ha]

theorem withdraw_missing_eq (st : Store) {acc : ℕ} {a : ℚ} (ha : ¬ a ≤ 0)
    (hl : lookupAcc acc st.accounts = none) :
    withdraw st acc (some a) = (st, some .notFound) := by
  simp [withdraw, ha, hl]

theorem withdraw_insufficient_eq (st : Store) {acc : ℕ} {a : ℚ} {A : Account} (ha : ¬ a ≤ 0)
    (hl : lookupAcc acc st.accounts = some A) (hb : A.balance < a) :
    withdraw st acc (some a) = (st, some .insufficientFunds) := by
  simp [withdraw, ha, hl, hb]

theorem withdraw_ok_eq (st : Store) {acc : ℕ} {a : ℚ} {A : Account} (ha : ¬ a ≤ 0)
    (hl : lookupAcc acc st.accounts = some A) (hb : ¬ A.balance < a) :
    withdraw st acc (some a) =
      ({ st with accounts := updateAcc acc (withdrawUpd a) st.accounts }, none) := by
  simp [withdraw, ha, hl, hb]

theorem transfer_same_eq (st : Store) (acc : ℕ) (amt : Option ℚ) :
    transfer st acc acc amt = (st, some .sameAccount) := by
  simp [transfer]

theorem transfer_noRecipient_eq (st : Store) {acc to_acc : ℕ} (amt : Option ℚ)
    (hne : to_acc ≠ acc) (hto : lookupAcc to_acc st.accounts = none) :
    transfer st acc to_acc amt = (st, some .notFound) := by
  simp [transfer, hne, hto]

theorem transfer_parseFail_eq (st : Store) {acc to_acc : ℕ} {B : Account}
    (hne : to_acc ≠ acc) (hto : lookupAcc to_acc st.accounts = some B) :
    transfer st acc to_acc none = (st, some .invalidAmount) := by
  simp [transfer, hne, hto]

theorem transfer_nonpos_eq (st : Store) {acc to_acc : ℕ} {a : ℚ} {B : Account}
    (hne : to_acc ≠ acc) (hto : lookupAcc to_acc st.accounts = some B) (ha : a ≤ 0) :
    transfer st acc to_acc (some a) = (st, some .invalidAmount) := by
  simp [transfer, hne, hto, ha]

theorem transfer_noSource_eq (st : Store) {acc to_acc : ℕ} {a : ℚ} {B : Account}
    (hne : to_acc ≠ acc) (hto : lookupAcc to_acc st.accounts = some B) (ha : ¬ a ≤ 0)
    (hsrc : lookupAcc acc st.accounts = none) :
    transfer st acc to_acc (some a) = (st, some .notFound) := by
  simp [transfer, hne, hto, ha, hsrc]

theorem transfer_insufficient_eq (st : Store) {acc to_acc : ℕ} {a : ℚ} {A B : Account}
    (hne : to_acc ≠ acc) (hto : lookupAcc to_acc st.accounts = some B) (ha : ¬ a ≤ 0)
    (hsrc : lookupAcc acc st.accounts = some A) (hb : A.balance < a) :
    transfer st acc to_acc (some a) = (st, some .insufficientFunds) := by
  simp [transfer, hne, hto, ha, hsrc, hb]

theorem transfer_ok_eq (st : Store) {acc to_acc : ℕ} {a : ℚ} {A B : Account}
    (hne : to_acc ≠ acc) (hto : lookupAcc to_acc st.accounts = some B) (ha : ¬ a ≤ 0)
    (hsrc : lookupAcc acc st.accounts = some A) (hb : ¬ A.balance < a) :
    transfer st acc to_acc (some a) =
      ({ st with accounts :=
          updateAcc to_acc (transferInUpd a acc) (updateAcc acc (transferOutUpd a to_acc) st.accounts) },
       none) := by
  simp [transfer, hne, hto, ha, hsrc, hb]

/-! Preservation of the store invariant by every operation. -/

theorem inv_update {st : Store} (h : Inv st) (acc : ℕ) (f : Account → Account)
    (hf : ∀ A, lookupAcc acc st.accounts = some A →
      0 ≤ (f A).balance ∧ signedSum (f A).history = (f A).balance) :
    Inv { st with accounts := updateAcc acc f st.accounts } := by
  obtain ⟨h1, h2, h3⟩ := h
  refine ⟨?_, ?_, ?_⟩
  · refine forall_mem_updateAcc h1 ?_
    intro a ha
    exact h1 (acc, a) (lookupAcc_some_mem ha)
  · exact forall_mem_updateAcc h2 (fun a ha => (hf a ha).1)
  · exact forall_mem_updateAcc h3 (fun a ha => (hf a ha).2)

theorem inv_create (st : Store) (name pin : String) (h : Inv st) :
    Inv (create_account st name pin).1 := by
  by_cases hn : name = ""
  · subst hn
    simpa [create_empty_eq] using h
  · rw [create_ok_eq st pin hn]
    obtain ⟨h1, h2, h3⟩ := h
    have hfresh : lookupAcc st.next_acc st.accounts = none :=
      lookupAcc_none_of_forall_lt h1
    refine ⟨?_, ?_, ?_⟩ <;> intro p hp <;>
      rw [insertAcc_of_none hfresh] at hp <;>
      rcases List.mem_append.mp hp with hmem | hmem
    · exact Nat.lt_succ_of_lt (h1 _ hmem)
    · simp only [List.mem_singleton] at hmem
      subst hmem
      exact Nat.lt_succ_self _
    · exact h2 _ hmem
    · simp only [List.mem_singleton] at hmem
      subst hmem
      norm_num
    · exact h3 _ hmem
    · simp only [List.mem_singleton] at hmem
      subst hmem
      simp [signedSum, signedAmt]

theorem inv_deposit (st : Store) (acc : ℕ) (amt : Option ℚ) (h : Inv st) :
    Inv (deposit st acc amt).1 := by
  match amt with
  | none => simpa [deposit_none_eq] using h
  | some a =>
    by_cases ha : a ≤ 0
    · simpa [deposit_nonpos_eq st acc ha] using h
    · cases hl : lookupAcc acc st.accounts with
      | none => simpa [deposit_missing_eq st ha hl] using h
      | some A =>
        rw [deposit_ok_eq st ha hl]
        refine inv_update h acc _ ?_
        intro B hB
        have hbal : 0 ≤ B.balance := h.2.1 _ (lookupAcc_some_mem hB)
        have hhist : signedSum B.history = B.balance := h.2.2 _ (lookupAcc_some_mem hB)
        constructor
        · rw [depositUpd_balance]
          have := not_le.mp ha
          linarith
        · rw [depositUpd_history, depositUpd_balance, signedSum_append, hhist]
          simp [signedSum, signedAmt_deposit]

theorem inv_withdraw (st : Store) (acc : ℕ) (amt : Option ℚ) (h : Inv st) :
    Inv (withdraw st acc amt).1 := by
  match amt with
  | none => simpa [withdraw_none_eq] using h
  | some a =>
    by_cases ha : a ≤ 0
    · simpa [withdraw_nonpos_eq st acc ha] using h
    · cases hl : lookupAcc acc st.accounts with
      | none => simpa [withdraw_missing_eq st ha hl] using h
      | some A =>
        by_cases hb : A.balance < a
        · simpa [withdraw_insufficient_eq st ha hl hb] using h
        · rw [withdraw_ok_eq st ha hl hb]
          refine inv_update h acc _ ?_
          intro B hB
          have hAB : A = B := by rw [hl] at hB; exact Option.some.inj hB
          rw [hAB] at hb
          have hhist : signedSum B.history = B.balance := h.2.2 _ (lookupAcc_some_mem hB)
          constructor
          · rw [withdrawUpd_balance]
            have := not_lt.mp hb
            linarith
          · rw [withdrawUpd_history, withdrawUpd_balance, signedSum_append, hhist]
            simp [signedSum, signedAmt_withdraw]
            ring

theorem inv_transfer (st : Store) (acc to_acc : ℕ) (amt : Option ℚ) (h : Inv st) :
    Inv (transfer st acc to_acc amt).1 := by
  by_cases hne : to_acc = acc
  · subst hne
    simpa [transfer_same_eq] using h
  · cases hto : lookupAcc to_acc st.accounts with
    | none => simpa [transfer_noRecipient_eq st amt hne hto] using h
    | some B =>
      match amt with
      | none => simpa [transfer_parseFail_eq st hne hto] using h
      | some a =>
        by_cases ha : a ≤ 0
        · simpa [transfer_nonpos_eq st hne hto ha] using h
        · cases hsrc : lookupAcc acc st.accounts with
          | none => simpa [transfer_noSource_eq st hne hto ha hsrc] using h
          | some A =>
            by_cases hb : A.balance < a
            · simpa [transfer_insufficient_eq st hne hto ha hsrc hb] using h
            · rw [transfer_ok_eq st hne hto ha hsrc hb]
              have h1 : Inv { st with accounts := updateAcc acc (transferOutUpd a to_acc) st.accounts } := by
                refine inv_update h acc _ ?_
                intro C hC
                have hAC : A = C := by rw [hsrc] at hC; exact Option.some.inj hC
                rw [hAC] at hb
                have hhist : signedSum C.history = C.balance := h.2.2 _ (lookupAcc_some_mem hC)
                constructor
                · rw [transferOutUpd_balance]
                  have := not_lt.mp hb
                  linarith
                · rw [transferOutUpd_history, transferOutUpd_balance, signedSum_append, hhist]
                  simp [signedSum, signedAmt_transfer_out]
                  ring
              refine inv_update h1 to_acc _ ?_
              intro C hC
              rw [show ({ st with accounts := updateAcc acc (transferOutUpd a to_acc) st.accounts } : Store).accounts = updateAcc acc (transferOutUpd a to_acc) st.accounts from rfl] at hC
              rw [lookupAcc_updateAcc_ne hne, hto] at hC
              have hBC : B = C := Option.some.inj hC
              have hmem : (to_acc, C) ∈ st.accounts := by
                rw [← hBC]
                exact lookupAcc_some_mem hto
              have hbal : 0 ≤ C.balance := h.2.1 _ hmem
              have hhist : signedSum C.history = C.balance := h.2.2 _ hmem
              constructor
              · rw [transferInUpd_balance]
                have := not_le.mp ha
                linarith
              · rw [transferInUpd_history, transferInUpd_balance, signedSum_append, hhist]
                simp [signedSum, signedAmt_transfer_in]

theorem inv_step (st : Store) (op : Op) (h : Inv st) : Inv (step st op).1 := by
  cases op with
  | create name pin => exact inv_create st name pin h
  | deposit acc amt => exact inv_deposit st acc amt h
  | withdraw acc amt => exact inv_withdraw st acc amt h
  | transfer acc t amt => exact inv_transfer st acc t amt h

theorem inv_run (st : Store) (ops : List Op) (h : Inv st) : Inv (run st ops) := by
  induction ops generalizing st with
  | nil => exact h
  | cons op rest ih => exact ih _ (inv_step st op h)

theorem inv_load_data : Inv load_data := by
  refine ⟨?_, ?_, ?_⟩ <;> simp [load_data]

theorem reachable_inv {st : Store} (h : Reachable st) : Inv st := by
  obtain ⟨ops, hops⟩ := h
  rw [← hops]
  exact inv_run _ _ inv_load_data

/-! Further lookup lemmas. -/

theorem lookupAcc_insertAcc_self (k : ℕ) (v : Account) (l : List (ℕ × Account)) :
    lookupAcc k (insertAcc k v l) = some v := by
  induction l with
  | nil => simp [insertAcc, lookupAcc]
  | cons p rest ih =>
    obtain ⟨k', b⟩ := p
    by_cases hk : k' = k
    · simp [insertAcc, if_pos hk, lookupAcc]
    · simp only [insertAcc, if_neg hk, lookupAcc]
      exact ih

theorem lookupAcc_insertAcc_ne {k k' : ℕ} (hk : k' ≠ k) (v : Account)
    (l : List (ℕ × Account)) : lookupAcc k' (insertAcc k v l) = lookupAcc k' l := by
  induction l with
  | nil =>
    show (if k = k' then some v else lookupAcc k' ([] : List (ℕ × Account))) = lookupAcc k' ([] : List (ℕ × Account))
    rw [if_neg (fun h => hk h.symm)]
  | cons p rest ih =>
    obtain ⟨k'', b⟩ := p
    by_cases h2 : k'' = k
    · have h3 : ¬ k = k' := fun h => hk h.symm
      have h4 : ¬ k'' = k' := fun h => hk (h.symm.trans h2)
      simp only [insertAcc, if_pos h2, lookupAcc]
      rw [if_neg h3, if_neg h4]
    · simp only [insertAcc, if_neg h2, lookupAcc]
      by_cases h3 : k'' = k'
      · rw [if_pos h3, if_pos h3]
      · rw [if_neg h3, if_neg h3]
        exact ih

theorem lookupAcc_append_left {k : ℕ} {a : Account} {l l' : List (ℕ × Account)}
    (h : lookupAcc k l = some a) : lookupAcc k (l ++ l') = some a := by
  induction l with
  | nil => simp [lookupAcc] at h
  | cons p rest ih =>
    obtain ⟨k', b⟩ := p
    by_cases hk : k' = k
    · simp only [lookupAcc, if_pos hk] at h
      simp [lookupAcc, if_pos hk, h]
    · simp only [lookupAcc, if_neg hk] at h
      simp only [List.cons_append, lookupAcc, if_neg hk]
      exact ih h

/-! Per-step and whole-run conservation of money. -/

theorem total_step (st : Store) (op : Op) (h : Inv st) :
    balSum ((step st op).1).accounts = balSum st.accounts + flowOf op (step st op).2 := by
  cases op with
  | create name pin =>
    simp only [step]
    by_cases hn : name = ""
    · subst hn
      rw [create_empty_eq]
      simp [flowOf]
    · rw [create_ok_eq st pin hn]
      have hfresh := lookupAcc_none_of_forall_lt h.1
      rw [show ({ next_acc := st.next_acc + 1, accounts := insertAcc st.next_acc { name := name, pin := pin, balance := 0, history := [{ kind := .create, amount := 0, note := "Account created" }] } st.accounts } : Store).accounts = insertAcc st.next_acc { name := name, pin := pin, balance := 0, history := [{ kind := .create, amount := 0, note := "Account created" }] } st.accounts from rfl]
      rw [insertAcc_of_none hfresh, balSum_append]
      simp [flowOf, balSum]
  | deposit acc amt =>
    simp only [step]
    cases amt with
    | none =>
      rw [deposit_none_eq]
      simp [flowOf]
    | some a =>
      by_cases ha : a ≤ 0
      · rw [deposit_nonpos_eq st acc ha]
        simp [flowOf]
      · cases hsrc : lookupAcc acc st.accounts with
        | none =>
          rw [deposit_missing_eq st ha hsrc]
          simp [flowOf]
        | some A =>
          rw [deposit_ok_eq st ha hsrc]
          show balSum (updateAcc acc (depositUpd a) st.accounts) = _
          rw [balSum_updateAcc hsrc, depositUpd_balance]
          simp [flowOf]
          ring
  | withdraw acc amt =>
    simp only [step]
    cases amt with
    | none =>
      rw [withdraw_none_eq]
      simp [flowOf]
    | some a =>
      by_cases ha : a ≤ 0
      · rw [withdraw_nonpos_eq st acc ha]
        simp [flowOf]
      · cases hsrc : lookupAcc acc st.accounts with
        | none =>
          rw [withdraw_missing_eq st ha hsrc]
          simp [flowOf]
        | some A =>
          by_cases hb : A.balance < a
          · rw [withdraw_insufficient_eq st ha hsrc hb]
            simp [flowOf]
          · rw [withdraw_ok_eq st ha hsrc hb]
            show balSum (updateAcc acc (withdrawUpd a) st.accounts) = _
            rw [balSum_updateAcc hsrc, withdrawUpd_balance]
            simp [flowOf]
            ring
  | transfer acc to_acc amt =>
    simp only [step]
    by_cases hne : to_acc = acc
    · subst hne
      rw [transfer_same_eq]
      simp [flowOf]
    · cases hto : lookupAcc to_acc st.accounts with
      | none =>
        rw [transfer_noRecipient_eq st amt hne hto]
        cases amt <;> simp [flowOf]
      | some B =>
        cases amt with
        | none =>
          rw [transfer_parseFail_eq st hne hto]
          simp [flowOf]
        | some a =>
          by_cases ha : a ≤ 0
          · rw [transfer_nonpos_eq st hne hto ha]
            simp [flowOf]
          · cases hsrc : lookupAcc acc st.accounts with
            | none =>
              rw [transfer_noSource_eq st hne hto ha hsrc]
              simp [flowOf]
            | some A =>
              by_cases hb : A.balance < a
              · rw [transfer_insufficient_eq st hne hto ha hsrc hb]
                simp [flowOf]
              · rw [transfer_ok_eq st hne hto ha hsrc hb]
                show balSum (updateAcc to_acc (transferInUpd a acc) (updateAcc acc (transferOutUpd a to_acc) st.accounts)) = _
                have hto2 : lookupAcc to_acc (updateAcc acc (transferOutUpd a to_acc) st.accounts) = some B := by
                  rw [lookupAcc_updateAcc_ne hne]
                  exact hto
                rw [balSum_updateAcc hto2, balSum_updateAcc hsrc,
                    transferInUpd_balance, transferOutUpd_balance]
                simp [flowOf]
                ring

theorem total_run (st : Store) (ops : List Op) (h : Inv st) :
    balSum (run st ops).accounts = balSum st.accounts + netFlow st ops := by
  induction ops generalizing st with
  | nil => simp [run, netFlow]
  | cons op rest ih =>
    show balSum (run (step st op).1 rest).accounts = _
    rw [ih _ (inv_step st op h), total_step st op h]
    show _ = balSum st.accounts + (flowOf op (step st op).2 + netFlow (step st op).1 rest)
    ring

/-! Per-step and whole-run history extension. -/

theorem step_history (st : Store) (op : Op)
    (hk : ∀ p ∈ st.accounts, p.1 < st.next_acc)
    {k : ℕ} {A : Account} (hl : lookupAcc k st.accounts = some A) :
    ∃ A' t, lookupAcc k ((step st op).1).accounts = some A' ∧
      A'.history = A.history ++ t ∧ t.length = touchOf k op (step st op).2 ∧
      A'.name = A.name ∧ A'.pin = A.pin := by
  cases op with
  | create name pin =>
    simp only [step]
    by_cases hn : name = ""
    · subst hn
      rw [create_empty_eq]
      exact ⟨A, [], hl, by simp, by simp [touchOf], rfl, rfl⟩
    · rw [create_ok_eq st pin hn]
      have hkne : k ≠ st.next_acc := Nat.ne_of_lt (hk _ (lookupAcc_some_mem hl))
      refine ⟨A, [], ?_, by simp, by simp [touchOf], rfl, rfl⟩
      show lookupAcc k (insertAcc st.next_acc _ st.accounts) = some A
      rw [lookupAcc_insertAcc_ne hkne]
      exact hl
  | deposit acc amt =>
    simp only [step]
    cases amt with
    | none =>
      rw [deposit_none_eq]
      exact ⟨A, [], hl, by simp, by simp [touchOf], rfl, rfl⟩
    | some a =>
      by_cases ha : a ≤ 0
      · rw [deposit_nonpos_eq st acc ha]
        exact ⟨A, [], hl, by simp, by simp [touchOf], rfl, rfl⟩
      · cases hsrc : lookupAcc acc st.accounts with
        | none =>
          rw [deposit_missing_eq st ha hsrc]
          exact ⟨A, [], hl, by simp, by simp [touchOf], rfl, rfl⟩
        | some B =>
          rw [deposit_ok_eq st ha hsrc]
          by_cases hak : acc = k
          · subst hak
            have hAB : B = A := by rw [hl] at hsrc; exact (Option.some.inj hsrc).symm
            subst hAB
            refine ⟨depositUpd a B, [{ kind := .deposit, amount := a, note := "Cash deposit" }], ?_, ?_, ?_, rfl, rfl⟩
            · show lookupAcc acc (updateAcc acc (depositUpd a) st.accounts) = _
              exact lookupAcc_updateAcc_self hl
            · exact depositUpd_history a B
            · simp [touchOf]
          · refine ⟨A, [], ?_, by simp, by simp [touchOf, hak], rfl, rfl⟩
            show lookupAcc k (updateAcc acc (depositUpd a) st.accounts) = some A
            rw [lookupAcc_updateAcc_ne (fun h => hak h.symm)]
            exact hl
  | withdraw acc amt =>
    simp only [step]
    cases amt with
    | none =>
      rw [withdraw_none_eq]
      exact ⟨A, [], hl, by simp, by simp [touchOf], rfl, rfl⟩
    | some a =>
      by_cases ha : a ≤ 0
      · rw [withdraw_nonpos_eq st acc ha]
        exact ⟨A, [], hl, by simp, by simp [touchOf], rfl, rfl⟩
      · cases hsrc : lookupAcc acc st.accounts with
        | none =>
          rw [withdraw_missing_eq st ha hsrc]
          exact ⟨A, [], hl, by simp, by simp [touchOf], rfl, rfl⟩
        | some B =>
          by_cases hb : B.balance < a
          · rw [withdraw_insufficient_eq st ha hsrc hb]
            exact ⟨A, [], hl, by simp, by simp [touchOf], rfl, rfl⟩
          · rw [withdraw_ok_eq st ha hsrc hb]
            by_cases hak : acc = k
            · subst hak
              have hAB : B = A := by rw [hl] at hsrc; exact (Option.some.inj hsrc).symm
              subst hAB
              refine ⟨withdrawUpd a B, [{ kind := .withdraw, amount := a, note := "Cash withdrawal" }], ?_, ?_, ?_, rfl, rfl⟩
              · show lookupAcc acc (updateAcc acc (withdrawUpd a) st.accounts) = _
                exact lookupAcc_updateAcc_self hl
              · exact withdrawUpd_history a B
              · simp [touchOf]
            · refine ⟨A, [], ?_, by simp, by simp [touchOf, hak], rfl, rfl⟩
              show lookupAcc k (updateAcc acc (withdrawUpd a) st.accounts) = some A
              rw [lookupAcc_updateAcc_ne (fun h => hak h.symm)]
              exact hl
  | transfer acc to_acc amt =>
    simp only [step]
    by_cases hne : to_acc = acc
    · subst hne
      rw [transfer_same_eq]
      exact ⟨A, [], hl, by simp, by cases amt <;> simp [touchOf], rfl, rfl⟩
    · cases hto : lookupAcc to_acc st.accounts with
      | none =>
        rw [transfer_noRecipient_eq st amt hne hto]
        exact ⟨A, [], hl, by simp, by cases amt <;> simp [touchOf], rfl, rfl⟩
      | some B =>
        cases amt with
        | none =>
          rw [transfer_parseFail_eq st hne hto]
          exact ⟨A, [], hl, by simp, by simp [touchOf], rfl, rfl⟩
        | some a =>
          by_cases ha : a ≤ 0
          · rw [transfer_nonpos_eq st hne hto ha]
            exact ⟨A, [], hl, by simp, by simp [touchOf], rfl, rfl⟩
          · cases hsrc : lookupAcc acc st.accounts with
            | none =>
              rw [transfer_noSource_eq st hne hto ha hsrc]
              exact ⟨A, [], hl, by simp, by simp [touchOf], rfl, rfl⟩
            | some C =>
              by_cases hb : C.balance < a
              · rw [transfer_insufficient_eq st hne hto ha hsrc hb]
                exact ⟨A, [], hl, by simp, by simp [touchOf], rfl, rfl⟩
              · rw [transfer_ok_eq st hne hto ha hsrc hb]
                by_cases hak : acc = k
                · subst hak
                  have hAC : C = A := by rw [hl] at hsrc; exact (Option.some.inj hsrc).symm
                  subst hAC
                  have htk : to_acc ≠ acc := hne
                  refine ⟨transferOutUpd a to_acc C, [{ kind := .transfer_out, amount := a, note := "To " ++ toString to_acc }], ?_, ?_, ?_, rfl, rfl⟩
                  · show lookupAcc acc (updateAcc to_acc (transferInUpd a acc) (updateAcc acc (transferOutUpd a to_acc) st.accounts)) = _
                    rw [lookupAcc_updateAcc_ne (fun h => htk h.symm)]
                    exact lookupAcc_updateAcc_self hl
                  · exact transferOutUpd_history a to_acc C
                  · simp [touchOf, fun h : to_acc = acc => hne h]
                · by_cases htk : to_acc = k
                  · subst htk
                    have hBA : B = A := by rw [hl] at hto; exact (Option.some.inj hto).symm
                    subst hBA
                    refine ⟨transferInUpd a acc B, [{ kind := .transfer_in, amount := a, note := "From " ++ toString acc }], ?_, ?_, ?_, rfl, rfl⟩
                    · show lookupAcc to_acc (updateAcc to_acc (transferInUpd a acc) (updateAcc acc (transferOutUpd a to_acc) st.accounts)) = _
                      have : lookupAcc to_acc (updateAcc acc (transferOutUpd a to_acc) st.accounts) = some B := by
                        rw [lookupAcc_updateAcc_ne hne]
                        exact hto
                      exact lookupAcc_updateAcc_self this
                    · exact transferInUpd_history a acc B
                    · simp [touchOf, hak]
                  · refine ⟨A, [], ?_, by simp, by simp [touchOf, hak, htk], rfl, rfl⟩
                    show lookupAcc k (updateAcc to_acc (transferInUpd a acc) (updateAcc acc (transferOutUpd a to_acc) st.accounts)) = some A
                    rw [lookupAcc_updateAcc_ne (fun h => htk h.symm),
                        lookupAcc_updateAcc_ne (fun h => hak h.symm)]
                    exact hl

theorem run_history (st : Store) (ops : List Op) (h : Inv st) {k : ℕ} {A : Account}
    (hl : lookupAcc k st.accounts = some A) :
    ∃ A', lookupAcc k (run st ops).accounts = some A' ∧
      A'.history.length = A.history.length + mutCount k st ops := by
  induction ops generalizing st A with
  | nil => exact ⟨A, hl, by simp [mutCount]⟩
  | cons op rest ih =>
    obtain ⟨A1, t1, hA1, hh1, hlen1, _, _⟩ := step_history st op h.1 hl
    obtain ⟨A', hA', hlen'⟩ := ih _ (inv_step st op h) hA1
    refine ⟨A', hA', ?_⟩
    have hmc : mutCount k st (op :: rest) = touchOf k op (step st op).2 + mutCount k (step st op).1 rest := rfl
    rw [hlen', hh1, List.length_append, hlen1, hmc]
    omega

/-! The claims. -/

/-- C1: If a transfer fails for any reason (same account, recipient not
found, invalid amount, or insufficient funds), the whole store — in
particular both accounts' balances and histories — is identical to its
pre-call state. -/
theorem transfer_failure_atomic (st : Store) (acc to_acc : ℕ) (amt : Option ℚ) (e : Err)
    (h : (transfer st acc to_acc amt).2 = some e) :
    (transfer st acc to_acc amt).1 = st ∧
    show_balance (transfer st acc to_acc amt).1 acc = show_balance st acc ∧
    show_balance (transfer st acc to_acc amt).1 to_acc = show_balance st to_acc ∧
    view_history (transfer st acc to_acc amt).1 acc = view_history st acc ∧
    view_history (transfer st acc to_acc amt).1 to_acc = view_history st to_acc := by
  have hst : (transfer st acc to_acc amt).1 = st := by
    by_cases hne : to_acc = acc
    · subst hne
      rw [transfer_same_eq]
    · cases hto : lookupAcc to_acc st.accounts with
      | none => rw [transfer_noRecipient_eq st amt hne hto]
      | some B =>
        cases amt with
        | none => rw [transfer_parseFail_eq st hne hto]
        | some a =>
          by_cases ha : a ≤ 0
          · rw [transfer_nonpos_eq st hne hto ha]
          · cases hsrc : lookupAcc acc st.accounts with
            | none => rw [transfer_noSource_eq st hne hto ha hsrc]
            | some A =>
              by_cases hb : A.balance < a
              · rw [transfer_insufficient_eq st hne hto ha hsrc hb]
              · rw [transfer_ok_eq st hne hto ha hsrc hb] at h
                simp at h
  exact ⟨hst, by rw [hst], by rw [hst], by rw [hst], by rw [hst]⟩

/-- C5: `withdraw` rejects an unparsable or non-positive amount as invalid;
among positive parsed amounts it is rejected with insufficient funds exactly
when the amount exceeds the balance (equality succeeds); otherwise it debits
the balance by the amount and appends one `withdraw` entry noted
"Cash withdrawal". -/
theorem withdraw_spec (st : Store) (acc : ℕ) :
    (withdraw st acc none = (st, some .invalidAmount)) ∧
    (∀ a : ℚ, a ≤ 0 → withdraw st acc (some a) = (st, some .invalidAmount)) ∧
    (∀ a A, 0 < a → lookupAcc acc st.accounts = some A →
       ((withdraw st acc (some a)).2 = some .insufficientFunds ↔ A.balance < a) ∧
       (A.balance < a → withdraw st acc (some a) = (st, some .insufficientFunds))) ∧
    (∀ a A, 0 < a → lookupAcc acc st.accounts = some A → a ≤ A.balance →
       (withdraw st acc (some a)).2 = none ∧
       lookupAcc acc ((withdraw st acc (some a)).1).accounts = some (withdrawUpd a A) ∧
       (withdrawUpd a A).balance = A.balance - a ∧
       (withdrawUpd a A).history =
         A.history ++ [{ kind := .withdraw, amount := a, note := "Cash withdrawal" }]) := by
  refine ⟨withdraw_none_eq st acc, ?_, ?_, ?_⟩
  · intro a ha
    exact withdraw_nonpos_eq st acc ha
  · intro a A ha hl
    have ha' : ¬ a ≤ 0 := not_le.mpr ha
    refine ⟨⟨?_, ?_⟩, fun hb => withdraw_insufficient_eq st ha' hl hb⟩
    · intro h2
      by_contra hb
      rw [withdraw_ok_eq st ha' hl hb] at h2
      simp at h2
    · intro hb
      rw [withdraw_insufficient_eq st ha' hl hb]
  · intro a A ha hl hle
    have ha' : ¬ a ≤ 0 := not_le.mpr ha
    have hb : ¬ A.balance < a := not_lt.mpr hle
    rw [withdraw_ok_eq st ha' hl hb]
    exact ⟨rfl, lookupAcc_updateAcc_self hl, withdrawUpd_balance a A, withdrawUpd_history a A⟩

/-- C6: a successful transfer debits the source and credits the destination
by the same amount and appends exactly one `transfer_out` entry on the
source and one `transfer_in` entry on the destination, the notes naming the
counterparty account numbers. -/
theorem transfer_success_spec (st : Store) (acc to_acc : ℕ) (a : ℚ) (A B : Account)
    (hne : to_acc ≠ acc) (hsrc : lookupAcc acc st.accounts = some A)
    (hto : lookupAcc to_acc st.accounts = some B) (ha : 0 < a) (hle : a ≤ A.balance) :
    (transfer st acc to_acc (some a)).2 = none ∧
    lookupAcc acc ((transfer st acc to_acc (some a)).1).accounts = some (transferOutUpd a to_acc A) ∧
    lookupAcc to_acc ((transfer st acc to_acc (some a)).1).accounts = some (transferInUpd a acc B) ∧
    (transferOutUpd a to_acc A).balance = A.balance - a ∧
    (transferInUpd a acc B).balance = B.balance + a ∧
    (transferOutUpd a to_acc A).history =
      A.history ++ [{ kind := .transfer_out, amount := a, note := "To " ++ toString to_acc }] ∧
    (transferInUpd a acc B).history =
      B.history ++ [{ kind := .transfer_in, amount := a, note := "From " ++ toString acc }] := by
  have ha' : ¬ a ≤ 0 := not_le.mpr ha
  have hb : ¬ A.balance < a := not_lt.mpr hle
  rw [transfer_ok_eq st hne hto ha' hsrc hb]
  refine ⟨rfl, ?_, ?_, rfl, rfl, rfl, rfl⟩
  · show lookupAcc acc (updateAcc to_acc (transferInUpd a acc) (updateAcc acc (transferOutUpd a to_acc) st.accounts)) = _
    rw [lookupAcc_updateAcc_ne (fun h2 => hne h2.symm)]
    exact lookupAcc_updateAcc_self hsrc
  · show lookupAcc to_acc (updateAcc to_acc (transferInUpd a acc) (updateAcc acc (transferOutUpd a to_acc) st.accounts)) = _
    have h1 : lookupAcc to_acc (updateAcc acc (transferOutUpd a to_acc) st.accounts) = some B := by
      rw [lookupAcc_updateAcc_ne hne]
      exact hto
    exact lookupAcc_updateAcc_self h1

/-- C7: `transfer` rejects a destination equal to the source with the
same-account error, an absent destination with not-found, and applies the
invalid-amount and insufficient-funds rules of `withdraw` to the source. -/
theorem transfer_error_spec (st : Store) :
    (∀ acc amt, transfer st acc acc amt = (st, some .sameAccount)) ∧
    (∀ acc to_acc amt, to_acc ≠ acc → lookupAcc to_acc st.accounts = none →
       transfer st acc to_acc amt = (st, some .notFound)) ∧
    (∀ acc to_acc B, to_acc ≠ acc → lookupAcc to_acc st.accounts = some B →
       transfer st acc to_acc none = (st, some .invalidAmount)) ∧
    (∀ acc to_acc B a, to_acc ≠ acc → lookupAcc to_acc st.accounts = some B → a ≤ 0 →
       transfer st acc to_acc (some a) = (st, some .invalidAmount)) ∧
    (∀ acc to_acc A B a, to_acc ≠ acc → lookupAcc to_acc st.accounts = some B →
       lookupAcc acc st.accounts = some A → 0 < a → A.balance < a →
       transfer st acc to_acc (some a) = (st, some .insufficientFunds)) := by
  refine ⟨fun acc amt => transfer_same_eq st acc amt, ?_, ?_, ?_, ?_⟩
  · intro acc to_acc amt hne hto
    exact transfer_noRecipient_eq st amt hne hto
  · intro acc to_acc B hne hto
    exact transfer_parseFail_eq st hne hto
  · intro acc to_acc B a hne hto ha
    exact transfer_nonpos_eq st hne hto ha
  · intro acc to_acc A B a hne hto hsrc ha hb
    exact transfer_insufficient_eq st hne hto (not_le.mpr ha) hsrc hb

/-- C8: `create_account` rejects an empty owner name leaving the store
unchanged; otherwise it allocates the current next counter value (1001 on a
fresh store), a number no existing account holds, bumps the counter by one,
and stores a zero-balance account whose history is the single `create` entry
of amount 0; existing accounts are untouched. -/
theorem create_account_spec (st : Store) (h : Reachable st) :
    load_data.next_acc = 1001 ∧
    (∀ pin, create_account st "" pin = (st, some .validationError)) ∧
    lookupAcc st.next_acc st.accounts = none ∧
    (∀ name pin, name ≠ "" →
       (create_account st name pin).2 = none ∧
       (create_account st name pin).1.next_acc = st.next_acc + 1 ∧
       lookupAcc st.next_acc ((create_account st name pin).1).accounts =
         some { name := name, pin := pin, balance := 0
                history := [{ kind := .create, amount := 0, note := "Account created" }] } ∧
       (∀ k, k ≠ st.next_acc →
          lookupAcc k ((create_account st name pin).1).accounts = lookupAcc k st.accounts)) := by
  have hinv := reachable_inv h
  refine ⟨rfl, fun pin => create_empty_eq st pin, lookupAcc_none_of_forall_lt hinv.1, ?_⟩
  intro name pin hn
  rw [create_ok_eq st pin hn]
  refine ⟨rfl, rfl, ?_, ?_⟩
  · exact lookupAcc_insertAcc_self _ _ _
  · intro k hk2
    exact lookupAcc_insertAcc_ne hk2 _ _

/-- C9: the history read returns the entries newest first (the most recent
successful operation's entry is displayed first), and balance/history reads
are pure functions of the store, so re-reading without an intervening
mutation yields identical results. -/
theorem read_spec :
    (∀ st acc A, lookupAcc acc st.accounts = some A →
       view_history st acc = some A.history.reverse ∧
       show_balance st acc = some A.balance) ∧
    (∀ st acc, view_history st acc = view_history st acc ∧
       show_balance st acc = show_balance st acc) ∧
    (∀ st acc A a, lookupAcc acc st.accounts = some A → 0 < a →
       view_history ((deposit st acc (some a)).1) acc =
         some ({ kind := .deposit, amount := a, note := "Cash deposit" } :: A.history.reverse)) := by
  refine ⟨?_, fun st acc => ⟨rfl, rfl⟩, ?_⟩
  · intro st acc A hl
    constructor
    · simp [view_history, hl]
    · simp [show_balance, hl]
  · intro st acc A a hl ha
    have ha' : ¬ a ≤ 0 := not_le.mpr ha
    rw [deposit_ok_eq st ha' hl]
    show view_history { st with accounts := updateAcc acc (depositUpd a) st.accounts } acc = _
    simp [view_history, lookupAcc_updateAcc_self hl, depositUpd_history]

/-- C2: in every reachable store all balances are non-negative, and a
withdrawal or (well-formed) transfer whose amount exceeds the source balance
is rejected with the insufficient-funds error, leaving the store — hence the
balance — unchanged. -/
theorem reachable_nonneg_insufficient (st : Store) (h : Reachable st) :
    (∀ p ∈ st.accounts, 0 ≤ p.2.balance) ∧
    (∀ acc A a, lookupAcc acc st.accounts = some A → A.balance < a →
       withdraw st acc (some a) = (st, some .insufficientFunds)) ∧
    (∀ acc to_acc A B a, to_acc ≠ acc →
       lookupAcc to_acc st.accounts = some B →
       lookupAcc acc st.accounts = some A → A.balance < a →
       transfer st acc to_acc (some a) = (st, some .insufficientFunds)) := by
  have hinv := reachable_inv h
  refine ⟨hinv.2.1, ?_, ?_⟩
  · intro acc A a hl hb
    have h0 : 0 ≤ A.balance := hinv.2.1 _ (lookupAcc_some_mem hl)
    exact withdraw_insufficient_eq st (not_le.mpr (lt_of_le_of_lt h0 hb)) hl hb
  · intro acc to_acc A B a hne hto hsrc hb
    have h0 : 0 ≤ A.balance := hinv.2.1 _ (lookupAcc_some_mem hsrc)
    exact transfer_insufficient_eq st hne hto (not_le.mpr (lt_of_le_of_lt h0 hb)) hsrc hb

/-- C3: starting from any reachable store, the sum of all balances changes
across a run by exactly the net flow — successful deposit amounts minus
successful withdrawal amounts, transfers and failures contributing zero —
and in particular a successful transfer leaves the total unchanged. -/
theorem conservation (st : Store) (h : Reachable st) :
    (∀ ops, balSum (run st ops).accounts = balSum st.accounts + netFlow st ops) ∧
    (∀ acc to_acc a st', transfer st acc to_acc a = (st', none) →
       balSum st'.accounts = balSum st.accounts) := by
  have hinv := reachable_inv h
  refine ⟨fun ops => total_run st ops hinv, ?_⟩
  intro acc to_acc a st' htr
  have hts := total_step st (.transfer acc to_acc a) hinv
  rw [show step st (.transfer acc to_acc a) = transfer st acc to_acc a from rfl, htr] at hts
  cases a <;> simpa [flowOf] using hts

/-- C4: every reachable account's history replays (signed) to its current
balance; a newly created account starts with history length 1 (the single
`create` entry); and any further run of operations grows an account's
history by exactly the number of successful mutating operations touching it. -/
theorem history_completeness (st : Store) (h : Reachable st) :
    (∀ p ∈ st.accounts, signedSum p.2.history = p.2.balance) ∧
    (∀ k A ops, lookupAcc k st.accounts = some A →
       ∃ A', lookupAcc k (run st ops).accounts = some A' ∧
         A'.history.length = A.history.length + mutCount k st ops) ∧
    (∀ name pin, name ≠ "" →
       ∃ A, lookupAcc st.next_acc ((create_account st name pin).1).accounts = some A ∧
         A.history = [{ kind := .create, amount := 0, note := "Account created" }] ∧
         A.history.length = 1) := by
  have hinv := reachable_inv h
  refine ⟨hinv.2.2, ?_, ?_⟩
  · intro k A ops hl
    exact run_history st ops hinv hl
  · intro name pin hn
    rw [create_ok_eq st pin hn]
    exact ⟨_, lookupAcc_insertAcc_self _ _ _, rfl, rfl⟩

/-- C10: successful deposits and withdrawals change only the named account,
preserving its owner name and PIN, every other account, and the counter;
a successful transfer changes only the two named accounts likewise;
authentication reads the store without changing any of its inputs; and every
operation only ever appends to an existing account's history. -/
theorem frame_spec :
    (∀ st acc amt st', deposit st acc amt = (st', none) →
       st'.next_acc = st.next_acc ∧
       (∀ k, k ≠ acc → lookupAcc k st'.accounts = lookupAcc k st.accounts) ∧
       (∀ A, lookupAcc acc st.accounts = some A →
          ∃ A', lookupAcc acc st'.accounts = some A' ∧ A'.name = A.name ∧ A'.pin = A.pin)) ∧
    (∀ st acc amt st', withdraw st acc amt = (st', none) →
       st'.next_acc = st.next_acc ∧
       (∀ k, k ≠ acc → lookupAcc k st'.accounts = lookupAcc k st.accounts) ∧
       (∀ A, lookupAcc acc st.accounts = some A →
          ∃ A', lookupAcc acc st'.accounts = some A' ∧ A'.name = A.name ∧ A'.pin = A.pin)) ∧
    (∀ st acc to_acc amt st', transfer st acc to_acc amt = (st', none) →
       st'.next_acc = st.next_acc ∧
       (∀ k, k ≠ acc → k ≠ to_acc → lookupAcc k st'.accounts = lookupAcc k st.accounts) ∧
       (∀ A, lookupAcc acc st.accounts = some A →
          ∃ A', lookupAcc acc st'.accounts = some A' ∧ A'.name = A.name ∧ A'.pin = A.pin) ∧
       (∀ B, lookupAcc to_acc st.accounts = some B →
          ∃ B', lookupAcc to_acc st'.accounts = some B' ∧ B'.name = B.name ∧ B'.pin = B.pin)) ∧
    (∀ st acc pin, authenticate st acc pin = authenticate st acc pin) ∧
    (∀ st op, (∀ p ∈ st.accounts, p.1 < st.next_acc) →
       ∀ k A, lookupAcc k st.accounts = some A →
         ∃ A' t, lookupAcc k ((step st op).1).accounts = some A' ∧
           A'.history = A.history ++ t) := by
  refine ⟨?_, ?_, ?_, fun st acc pin => rfl, ?_⟩
  · intro st acc amt st' h
    match amt with
    | none =>
      rw [deposit_none_eq] at h
      exact absurd (congrArg Prod.snd h) (by simp)
    | some a =>
      by_cases ha : a ≤ 0
      · rw [deposit_nonpos_eq st acc ha] at h
        exact absurd (congrArg Prod.snd h) (by simp)
      · cases hl : lookupAcc acc st.accounts with
        | none =>
          rw [deposit_missing_eq st ha hl] at h
          exact absurd (congrArg Prod.snd h) (by simp)
        | some A =>
          rw [deposit_ok_eq st ha hl] at h
          obtain rfl : st' = { st with accounts := updateAcc acc (depositUpd a) st.accounts } :=
            (congrArg Prod.fst h).symm
          refine ⟨rfl, ?_, ?_⟩
          · intro k hk
            exact lookupAcc_updateAcc_ne hk _ _
          · intro A2 hA2
            cases Option.some.inj hA2
            exact ⟨_, lookupAcc_updateAcc_self hl, rfl, rfl⟩
  · intro st acc amt st' h
    match amt with
    | none =>
      rw [withdraw_none_eq] at h
      exact absurd (congrArg Prod.snd h) (by simp)
    | some a =>
      by_cases ha : a ≤ 0
      · rw [withdraw_nonpos_eq st acc ha] at h
        exact absurd (congrArg Prod.snd h) (by simp)
      · cases hl : lookupAcc acc st.accounts with
        | none =>
          rw [withdraw_missing_eq st ha hl] at h
          exact absurd (congrArg Prod.snd h) (by simp)
        | some A =>
          by_cases hb : A.balance < a
          · rw [withdraw_insufficient_eq st ha hl hb] at h
            exact absurd (congrArg Prod.snd h) (by simp)
          · rw [withdraw_ok_eq st ha hl hb] at h
            obtain rfl : st' = { st with accounts := updateAcc acc (withdrawUpd a) st.accounts } :=
              (congrArg Prod.fst h).symm
            refine ⟨rfl, ?_, ?_⟩
            · intro k hk
              exact lookupAcc_updateAcc_ne hk _ _
            · intro A2 hA2
              cases Option.some.inj hA2
              exact ⟨_, lookupAcc_updateAcc_self hl, rfl, rfl⟩
  · intro st acc to_acc amt st' h
    by_cases hne : to_acc = acc
    · subst hne
      rw [transfer_same_eq] at h
      exact absurd (congrArg Prod.snd h) (by simp)
    · cases hto : lookupAcc to_acc st.accounts with
      | none =>
        rw [transfer_noRecipient_eq st amt hne hto] at h
        exact absurd (congrArg Prod.snd h) (by simp)
      | some B =>
        cases amt with
        | none =>
          rw [transfer_parseFail_eq st hne hto] at h
          exact absurd (congrArg Prod.snd h) (by simp)
        | some a =>
          by_cases ha : a ≤ 0
          · rw [transfer_nonpos_eq st hne hto ha] at h
            exact absurd (congrArg Prod.snd h) (by simp)
          · cases hsrc : lookupAcc acc st.accounts with
            | none =>
              rw [transfer_noSource_eq st hne hto ha hsrc] at h
              exact absurd (congrArg Prod.snd h) (by simp)
            | some A =>
              by_cases hb : A.balance < a
              · rw [transfer_insufficient_eq st hne hto ha hsrc hb] at h
                exact absurd (congrArg Prod.snd h) (by simp)
              · rw [transfer_ok_eq st hne hto ha hsrc hb] at h
                obtain rfl : st' = { st with accounts := updateAcc to_acc (transferInUpd a acc) (updateAcc acc (transferOutUpd a to_acc) st.accounts) } := (congrArg Prod.fst h).symm
                refine ⟨rfl, ?_, ?_, ?_⟩
                · intro k hk1 hk2
                  show lookupAcc k (updateAcc to_acc _ (updateAcc acc _ st.accounts)) = _
                  rw [lookupAcc_updateAcc_ne hk2, lookupAcc_updateAcc_ne hk1]
                · intro A2 hA2
                  cases Option.some.inj hA2
                  refine ⟨transferOutUpd a to_acc A, ?_, rfl, rfl⟩
                  show lookupAcc acc (updateAcc to_acc _ (updateAcc acc _ st.accounts)) = _
                  rw [lookupAcc_updateAcc_ne (fun h2 => hne h2.symm)]
                  exact lookupAcc_updateAcc_self hsrc
                · intro B2 hB2
                  cases Option.some.inj hB2
                  refine ⟨transferInUpd a acc B, ?_, rfl, rfl⟩
                  show lookupAcc to_acc (updateAcc to_acc _ (updateAcc acc _ st.accounts)) = _
                  have h1 : lookupAcc to_acc (updateAcc acc (transferOutUpd a to_acc) st.accounts) = some B := by
                    rw [lookupAcc_updateAcc_ne hne]
                    exact hto
                  exact lookupAcc_updateAcc_self h1
  · intro st op hk k A hl
    obtain ⟨A', t, h1, h2, _, _, _⟩ := step_history st op hk hl
    exact ⟨A', t, h1, h2⟩

/-! Concrete witnesses for the claims, on the demo store. -/

theorem transfer_failure_atomic_witness :
    (transfer demoStore 1001 1001 (some 5)).1 = demoStore :=
  (transfer_failure_atomic demoStore 1001 1001 (some 5) .sameAccount rfl).1

theorem reachable_nonneg_insufficient_witness :
    withdraw demoStore 1001 (some 600) = (demoStore, some .insufficientFunds) :=
  (reachable_nonneg_insufficient demoStore ⟨_, rfl⟩).2.1 1001 demoAlice 600
    (by simp [demoStore, run, step, load_data, create_account, insertAcc, deposit, lookupAcc, updateAcc, depositUpd, add_history, demoAlice])
    (by norm_num [demoAlice])

theorem conservation_witness :
    balSum (run demoStore [.withdraw 1001 (some 100), .deposit 1002 (some 30)]).accounts
      = balSum demoStore.accounts + netFlow demoStore [.withdraw 1001 (some 100), .deposit 1002 (some 30)] :=
  (conservation demoStore ⟨_, rfl⟩).1 _

theorem history_completeness_witness :
    ∃ A', lookupAcc 1001 (run demoStore [.deposit 1001 (some 7)]).accounts = some A' ∧
      A'.history.length = demoAlice.history.length + mutCount 1001 demoStore [.deposit 1001 (some 7)] :=
  (history_completeness demoStore ⟨_, rfl⟩).2.1 1001 demoAlice _
    (by simp [demoStore, run, step, load_data, create_account, insertAcc, deposit, lookupAcc, updateAcc, depositUpd, add_history, demoAlice])

theorem withdraw_spec_witness :
    (withdraw demoStore 1001 (some 500)).2 = none ∧
    lookupAcc 1001 ((withdraw demoStore 1001 (some 500)).1).accounts = some (withdrawUpd 500 demoAlice) ∧
    (withdrawUpd 500 demoAlice).balance = demoAlice.balance - 500 ∧
    (withdrawUpd 500 demoAlice).history = demoAlice.history ++ [{ kind := .withdraw, amount := 500, note := "Cash withdrawal" }] :=
  (withdraw_spec demoStore 1001).2.2.2 500 demoAlice (by norm_num)
    (by simp [demoStore, run, step, load_data, create_account, insertAcc, deposit, lookupAcc, updateAcc, depositUpd, add_history, demoAlice])
    (by norm_num [demoAlice])

theorem transfer_success_spec_witness :
    (transfer demoStore 1001 1002 (some 200)).2 = none ∧
    lookupAcc 1002 ((transfer demoStore 1001 1002 (some 200)).1).accounts = some (transferInUpd 200 1001 demoBob) := by
  have h := transfer_success_spec demoStore 1001 1002 200 demoAlice demoBob (by norm_num)
    (by simp [demoStore, run, step, load_data, create_account, insertAcc, deposit, lookupAcc, updateAcc, depositUpd, add_history, demoAlice])
    (by simp [demoStore, run, step, load_data, create_account, insertAcc, deposit, lookupAcc, updateAcc, depositUpd, add_history, demoBob])
    (by norm_num) (by norm_num [demoAlice])
  exact ⟨h.1, h.2.2.1⟩

theorem transfer_error_spec_witness :
    transfer demoStore 1001 1001 none = (demoStore, some .sameAccount) ∧
    transfer demoStore 1001 1999 none = (demoStore, some .notFound) := by
  have h := transfer_error_spec demoStore
  refine ⟨h.1 1001 none, h.2.1 1001 1999 none (by norm_num) ?_⟩
  simp [demoStore, run, step, load_data, create_account, insertAcc, deposit, lookupAcc, updateAcc, depositUpd, add_history]

theorem create_account_spec_witness :
    lookupAcc demoStore.next_acc demoStore.accounts = none ∧
    (create_account demoStore "Carol" "7777").1.next_acc = demoStore.next_acc + 1 := by
  have h := create_account_spec demoStore ⟨_, rfl⟩
  exact ⟨h.2.2.1, (h.2.2.2 "Carol" "7777" (by simp)).2.1⟩

theorem read_spec_witness :
    view_history demoStore 1001 = some demoAlice.history.reverse ∧
    view_history ((deposit demoStore 1001 (some 7)).1) 1001 =
      some ({ kind := .deposit, amount := 7, note := "Cash deposit" } :: demoAlice.history.reverse) := by
  have h := read_spec
  exact ⟨(h.1 demoStore 1001 demoAlice (by simp [demoStore, run, step, load_data, create_account, insertAcc, deposit, lookupAcc, updateAcc, depositUpd, add_history, demoAlice])).1,
         h.2.2 demoStore 1001 demoAlice 7 (by simp [demoStore, run, step, load_data, create_account, insertAcc, deposit, lookupAcc, updateAcc, depositUpd, add_history, demoAlice]) (by norm_num)⟩

theorem frame_spec_witness :
    lookupAcc 1002 ((ATM.deposit demoStore 1001 (some 5)).1).accounts = lookupAcc 1002 demoStore.accounts := by
  have h := frame_spec
  exact (h.1 demoStore 1001 (some 5) (ATM.deposit demoStore 1001 (some 5)).1
    (by norm_num [demoStore, run, step, load_data, create_account, insertAcc, deposit, lookupAcc, updateAcc, depositUpd, add_history, demoAlice])).2.1 1002 (by norm_num)

end ATM
